import Mathlib

/-!
Shallow embedding of `parquet/src/compression.rs` (typed codec layer):
the value marshaller (`Codec::convert_to_u8` / `Codec::convert_from_u8`),
the Snappy decompress adapter, the LZ4 raw/frame/Hadoop codecs and the
q-compress codec's compress dispatch.

Conventions of the embedding:
- bytes are `Nat` (each `< 256` where produced by the code);
- a typed value is represented by its fixed-width bit pattern as a `Nat`
  (faithful for the unsigned, signed and float types, since every
  conversion in the source goes through the big-endian byte image);
- an in-out `&mut Vec` parameter becomes an explicit argument plus the
  final buffer in the result;
- a `panic!` / failed `expect` / failed `byteorder` length assertion,
  which aborts the Rust process, is the `abort` outcome, kept distinct
  from a recoverable `Err` so that error-driven fallback never fires on
  an abort;
- the third-party backends (snap, lz4 block, lz4 frame, q_compress) are
  opaque parameters, as the spec treats them.
-/

/-- The closed set of primitive type tags (`DataTypeConstraint::typename`). -/
inductive TypeTag where
  | u8 | u16 | u32 | u64
  | i8 | i16 | i32 | i64
  | f32 | f64
deriving DecidableEq

/-- Element byte width of a tag (`std::mem::size_of::<T>()`). -/
def byteWidth : TypeTag → Nat
  | .u8 => 1
  | .u16 => 2
  | .u32 => 4
  | .u64 => 8
  | .i8 => 1
  | .i16 => 2
  | .i32 => 4
  | .i64 => 8
  | .f32 => 4
  | .f64 => 8

/-- Tags the marshaller actually handles: every match in
`convert_to_u8` / `convert_from_u8` has arms for all tags except `i8`
(its arm is commented out in the source), which falls into the
`panic!("Unsupported data type")` arm. -/
def marshalSupported : TypeTag → Bool
  | .i8 => false
  | _ => true

/-- A process abort (`panic!`, failed `expect`, or a `byteorder`
length assertion). -/
inductive AbortKind where
  | unsupportedType
  | lenAssert
deriving DecidableEq

/-- The distinct `io::Error` messages produced by `try_decompress_hadoop`. -/
inductive HadoopParseErr where
  /-- "Not enough bytes for Hadoop frame" -/
  | notEnoughInput
  /-- "Not enough bytes to hold advertised output" -/
  | notEnoughOutput
  /-- "Unexpected decompressed size" -/
  | unexpectedDecompressedSize
  /-- "Not all input are consumed" -/
  | notAllConsumed
deriving DecidableEq

/-- Recoverable errors (`ParquetError` / `io::Error`, via `.into()`). -/
inductive Err where
  | general (msg : String)
  | hadoop (k : HadoopParseErr)
deriving DecidableEq

/-- Result of a codec operation: success, recoverable error returned to
the caller, or process abort. -/
inductive Outcome (α : Type) where
  | ok (a : α)
  | err (e : Err)
  | abort (p : AbortKind)
deriving DecidableEq

/-- Result of a marshalling call: the `Ok(output_buf.len())` value plus
the final output buffer, or an abort (the source's marshaller never
returns `Err`). -/
inductive MRes where
  | ok (n : Nat) (out : List Nat)
  | abort (p : AbortKind)
deriving DecidableEq

/-- Big-endian byte image of `v`, `w` bytes wide. -/
def beBytes : Nat → Nat → List Nat
  | 0, _ => []
  | w + 1, v => beBytes w (v / 256) ++ [v % 256]

/-- Big-endian value of a byte list (`u32::from_be_bytes` and the
`BigEndian::read_*` element decoding). -/
def fromBeBytes (l : List Nat) : Nat :=
  l.foldl (fun a b => a * 256 + b) 0

/-- `BigEndian::write_*_into`: each element's big-endian image, concatenated. -/
def encodeBE (w : Nat) : List Nat → List Nat
  | [] => []
  | v :: rest => beBytes w v ++ encodeBE w rest

/-- `BigEndian::read_*_into` into a buffer of `k` elements: decode `k`
big-endian chunks of width `w`. -/
def decodeBEN : Nat → Nat → List Nat → List Nat
  | 0, _, _ => []
  | k + 1, w, l => fromBeBytes (l.take w) :: decodeBEN k w (l.drop w)

/-- `Codec::convert_to_u8`: marshal a typed sequence into bytes.
For `u8` the values are appended to `output_buf`; for every multi-byte
tag the source does `output_buf.resize(u8_size, 0)` (an absolute resize)
and then `write_*_into` overwrites all `u8_size` bytes, so any
pre-existing content of `output_buf` is discarded; the `i8` arm is
commented out in the source, so `i8` hits the `panic!` arm.
Returns `Ok(output_buf.len())`. -/
def convert_to_u8 (t : TypeTag) (input : List Nat) (outBuf : List Nat) : MRes :=
  match t with
  | .u8 =>
    let out := outBuf ++ input
    .ok out.length out
  | .i8 => .abort .unsupportedType
  | _ =>
    let out := encodeBE (byteWidth t) input
    .ok out.length out

/-- `Codec::convert_from_u8`: unmarshal bytes into typed values appended
to `output_buf`. For a multi-byte tag the source resizes an internal
buffer to `input.len() / width` elements and calls `read_*_into`, which
asserts `input.len() == width * (input.len() / width)` and aborts the
process otherwise; the `i8` arm is commented out, so `i8` hits the
`panic!` arm. Returns `Ok(output_buf.len())`. -/
def convert_from_u8 (t : TypeTag) (input : List Nat) (outBuf : List Nat) : MRes :=
  match t with
  | .u8 =>
    let out := outBuf ++ input
    .ok out.length out
  | .i8 => .abort .unsupportedType
  | _ =>
    if input.length % byteWidth t = 0 then
      let out := outBuf ++ decodeBEN (input.length / byteWidth t) (byteWidth t) input
      .ok out.length out
    else .abort .lenAssert

/-- The value component `convert_to_u8` produces on its non-abort paths. -/
def marshalEncode (t : TypeTag) (input : List Nat) : List Nat :=
  match t with
  | .u8 => input
  | .i8 => []
  | _ => encodeBE (byteWidth t) input

/-- The elements `convert_from_u8` appends on its non-abort paths. -/
def marshalDecode (t : TypeTag) (input : List Nat) : List Nat :=
  match t with
  | .u8 => input
  | .i8 => []
  | _ => decodeBEN (input.length / byteWidth t) (byteWidth t) input

/-- Opaque `lz4::block::decompress_to_buffer` backend:
(input, size hint, destination buffer) to (result byte count, final
buffer contents). -/
abbrev BlockFn := List Nat → Nat → List Nat → (Except Err Nat) × List Nat

/-- Opaque LZ4 frame backend (`lz4::Decoder` plus the read loop of
`LZ4Codec::decompress`): input bytes to the full decompressed stream. -/
abbrev FrameFn := List Nat → Except Err (List Nat)

/-- Opaque `snap::raw::Decoder::decompress` backend: (input, destination
buffer) to (result byte count, final buffer contents). -/
abbrev SnappyFn := List Nat → List Nat → (Except Err Nat) × List Nat

/-- `SnappyCodec::decompress`. The internal byte buffer is fresh, sized
to `uncompress_size` (or `decompress_len(input)?`), filled by the snap
decoder; `retsize` is the decoder's byte count (kept even when it is an
`Err`), the whole internal buffer is then unmarshalled onto the caller's
typed buffer (its failure is an `expect`, an abort), and `retsize` is
returned. -/
def snappy_decompress (dlen : List Nat → Except Err Nat) (dec : SnappyFn)
    (input : List Nat) (t : TypeTag) (outBuf : List Nat) (us : Option Nat) :
    Outcome Nat × List Nat :=
  match (match us with | some s => Except.ok s | none => dlen input) with
  | .error e => (.err e, outBuf)
  | .ok len =>
    match dec input (List.replicate len 0) with
    | (res, internal2) =>
      match convert_from_u8 t internal2 outBuf with
      | .abort p => (.abort p, outBuf)
      | .ok _ out2 =>
        match res with
        | .ok n => (.ok n, out2)
        | .error e => (.err e, out2)

/-- `LZ4Codec::decompress` (the LZ4 frame variant): run the frame
decoder over the whole input, unmarshal the decompressed bytes onto the
caller's buffer (failure is an `expect`, an abort), and return
`total_len`, the number of decompressed bytes read. -/
def lz4_frame_decompress (fd : FrameFn) (input : List Nat) (t : TypeTag)
    (outBuf : List Nat) : Outcome Nat × List Nat :=
  match fd input with
  | .error e => (.err e, outBuf)
  | .ok bytes =>
    match convert_from_u8 t bytes outBuf with
    | .abort p => (.abort p, outBuf)
    | .ok _ out2 => (.ok bytes.length, out2)

/-- `LZ4RawCodec::decompress`: requires `uncompress_size`; the internal
buffer is fresh, sized to `required_len`, passed to the block backend.
On `Ok(n)` with `n != required_len` the function returns early with an
error (the unmarshalling step is skipped); otherwise the internal buffer
is unmarshalled onto the caller's buffer even when the backend returned
`Err`, and the backend's result is returned. -/
def lz4_raw_decompress (bd : BlockFn) (input : List Nat) (t : TypeTag)
    (outBuf : List Nat) (us : Option Nat) : Outcome Nat × List Nat :=
  match us with
  | none => (.err (.general "LZ4RawCodec unsupported without uncompress_size"), outBuf)
  | some required_len =>
    match bd input required_len (List.replicate required_len 0) with
    | (Except.ok n, internal2) =>
      if n ≠ required_len then
        (.err (.general "LZ4RawCodec uncompress_size is not the expected one"), outBuf)
      else
        match convert_from_u8 t internal2 outBuf with
        | .abort p => (.abort p, outBuf)
        | .ok _ out2 => (.ok n, out2)
    | (Except.error e, internal2) =>
      match convert_from_u8 t internal2 outBuf with
      | .abort p => (.abort p, outBuf)
      | .ok _ out2 => (.err e, out2)

/-- `LZ4RawCodec::compress`: marshal the input, reserve
`compress_bound` bytes at the end of the output buffer, run the block
compressor into that slice, and on `Ok(n)` truncate back to
`offset + n`; on `Err` the resized slice is left in place. -/
def lz4_raw_compress (cbound : Nat → Except Err Nat)
    (bcomp : List Nat → List Nat → (Except Err Nat) × List Nat)
    (t : TypeTag) (input : List Nat) (outBuf : List Nat) :
    Outcome Unit × List Nat :=
  match convert_to_u8 t input [] with
  | .abort p => (.abort p, outBuf)
  | .ok _ internal =>
    match cbound internal.length with
    | .error e => (.err e, outBuf)
    | .ok bound =>
      match bcomp internal (List.replicate bound 0) with
      | (Except.ok n, slice2) => (.ok (), outBuf ++ slice2.take n)
      | (Except.error e, slice2) => (.err e, outBuf ++ slice2)

/-- One pass of the `while` loop of `try_decompress_hadoop`, embedded
with a fuel parameter for structural recursion. Every iteration that
recurses consumes the 8-byte prefix plus the frame payload, so the
input shrinks by at least 8 bytes per iteration and `fuel :=
input.length` (supplied by `try_decompress_hadoop`) always suffices;
the fuel-0 arm repeats the loop-exit check and is only reached with
empty input. Mirrors the source exactly, including the quirk that the
loop `break`s without advancing when the remaining input does not
exceed `expected_compressed_size`. -/
def try_decompress_hadoop_loop (bd : BlockFn) :
    Nat → List Nat → List Nat → Nat → (Except Err Nat) × List Nat
  | 0, input, output, readBytes =>
    ((if input.length = 0 then Except.ok readBytes
      else Except.error (Err.hadoop .notAllConsumed)), output)
  | fuel + 1, input, output, readBytes =>
    if input.length < 8 then
      ((if input.length = 0 then Except.ok readBytes
        else Except.error (Err.hadoop .notAllConsumed)), output)
    else
      let eds := fromBeBytes (input.take 4)
      let ecs := fromBeBytes ((input.drop 4).take 4)
      let input1 := input.drop 8
      if input1.length < ecs then (.error (.hadoop .notEnoughInput), output)
      else if output.length < eds then (.error (.hadoop .notEnoughOutput), output)
      else
        match bd (input1.take ecs) output.length output with
        | (Except.error e, output2) => (.error e, output2)
        | (Except.ok ds, output2) =>
          if ds ≠ eds then (.error (.hadoop .unexpectedDecompressedSize), output2)
          else
            let inputLen2 := input1.length - ecs
            if inputLen2 > ecs then
              match try_decompress_hadoop_loop bd fuel (input1.drop ecs)
                  (output2.drop eds) (readBytes + eds) with
              | (r, rest) => (r, output2.take eds ++ rest)
            else
              ((if inputLen2 = 0 then Except.ok (readBytes + eds)
                else Except.error (Err.hadoop .notAllConsumed)), output2)

/-- `try_decompress_hadoop`: parse the multi-frame Hadoop container,
decompressing each frame's payload into the output buffer; returns the
total decompressed byte count and the final output buffer. -/
def try_decompress_hadoop (bd : BlockFn) (input output : List Nat) :
    (Except Err Nat) × List Nat :=
  try_decompress_hadoop_loop bd input.length input output 0

/-- `LZ4HadoopCodec::decompress`. `internal_output_buf` is fresh, so the
source's `output_len` variable is 0; on a parse error with
`backward_compatible_lz4` set, `output_buf.truncate(output_len)`
truncates the caller's typed buffer to length 0 (hence the `[]` passed
to the fallback attempts), the LZ4 frame codec is tried, then the LZ4
raw codec; in every non-early-return path the internal byte buffer is
finally unmarshalled onto the typed buffer and the retained result is
returned. -/
def lz4_hadoop_decompress (bd : BlockFn) (fd : FrameFn) (bc : Bool)
    (input : List Nat) (t : TypeTag) (outBuf : List Nat) (us : Option Nat) :
    Outcome Nat × List Nat :=
  match us with
  | none => (.err (.general "LZ4HadoopCodec unsupported without uncompress_size"), outBuf)
  | some required_len =>
    match try_decompress_hadoop bd input (List.replicate required_len 0) with
    | (Except.ok n, internal2) =>
      if n ≠ required_len then
        (.err (.general "LZ4HadoopCodec uncompress_size is not the expected one"), outBuf)
      else
        match convert_from_u8 t internal2 outBuf with
        | .abort p => (.abort p, outBuf)
        | .ok _ out2 => (.ok n, out2)
    | (Except.error e, internal2) =>
      if bc = false then
        match convert_from_u8 t internal2 outBuf with
        | .abort p => (.abort p, outBuf)
        | .ok _ out2 => (.err e, out2)
      else
        match lz4_frame_decompress fd input t [] with
        | (Outcome.ok m, outF) =>
          match convert_from_u8 t internal2 outF with
          | .abort p => (.abort p, outF)
          | .ok _ out2 => (.ok m, out2)
        | (Outcome.abort p, outF) => (.abort p, outF)
        | (Outcome.err _, _) =>
          match lz4_raw_decompress bd input t [] (some required_len) with
          | (Outcome.abort p, outR) => (.abort p, outR)
          | (rres, outR) =>
            match convert_from_u8 t internal2 outR with
            | .abort p => (.abort p, outR)
            | .ok _ out2 => (rres, out2)

/-- Big-endian image of a length cast `as u32`. -/
def be32 (k : Nat) : List Nat :=
  beBytes 4 (k % 4294967296)

/-- `LZ4HadoopCodec::compress`: marshal the input, reserve the 8-byte
prefix, append the LZ4 raw compression of the same input, then backfill
the prefix with the big-endian decompressed byte length and the
big-endian count of compressed bytes actually produced. -/
def lz4_hadoop_compress (cbound : Nat → Except Err Nat)
    (bcomp : List Nat → List Nat → (Except Err Nat) × List Nat)
    (t : TypeTag) (input : List Nat) (outBuf : List Nat) :
    Outcome Unit × List Nat :=
  match convert_to_u8 t input [] with
  | .abort p => (.abort p, outBuf)
  | .ok _ internal =>
    match lz4_raw_compress cbound bcomp t input (outBuf ++ List.replicate 8 0) with
    | (Outcome.abort p, out2) => (.abort p, out2)
    | (Outcome.err e, out2) => (.err e, out2)
    | (Outcome.ok _, out2) =>
      let slice := out2.drop outBuf.length
      let csize := slice.length - 8
      (.ok (), out2.take outBuf.length ++ be32 internal.length ++ be32 csize ++ slice.drop 8)

/-- `QcomCodec::compress`: dispatch on the input tag; the supported arms
marshal through the q-compress backend and append its bytes; `u8` and
`i8` fall into the `panic!("Unsupported data type")` arm, aborting the
process. -/
def qcom_compress (qc : TypeTag → List Nat → List Nat) (t : TypeTag)
    (input : List Nat) (outBuf : List Nat) : Outcome Unit × List Nat :=
  match t with
  | .u16 | .u32 | .u64 | .i16 | .i32 | .i64 | .f32 | .f64 =>
    (.ok (), outBuf ++ qc t input)
  | _ => (.abort .unsupportedType, outBuf)

/-- The value of the Hadoop fallback chain: the frame attempt's result
unless it is a recoverable error, in which case the raw attempt's
result. -/
def fallbackChain (f r : Outcome Nat) : Outcome Nat :=
  match f with
  | .err _ => r
  | x => x

/-- Concrete block backend for witnesses: writes nothing, reports 0 bytes. -/
def bdZero : BlockFn := fun _ _ b => (Except.ok 0, b)

/-- Concrete block backend for witnesses: always fails. -/
def bdErr : BlockFn := fun _ _ b => (Except.error (Err.general "x"), b)

/-- Concrete frame backend for witnesses: decodes to the byte `[5]`. -/
def fdOk5 : FrameFn := fun _ => Except.ok [5]

/-- Concrete frame backend for witnesses: decodes to the bytes `[1, 2]`. -/
def fdOk12 : FrameFn := fun _ => Except.ok [1, 2]

/-- Concrete frame backend for witnesses: always fails. -/
def fdErr : FrameFn := fun _ => Except.error (Err.general "frame bad")

/-- Concrete `decompress_len` for witnesses. -/
def dlen0 : List Nat → Except Err Nat := fun _ => Except.ok 0

/-- Concrete snappy backend for witnesses: reports 4 bytes, buffer `[0,1,2,3]`. -/
def dec4 : SnappyFn := fun _ _ => (Except.ok 4, [0, 1, 2, 3])

/-- Concrete `compress_bound` for witnesses. -/
def cbound3 : Nat → Except Err Nat := fun _ => Except.ok 3

/-- Concrete block compressor for witnesses: reports 2 bytes, slice `[10,11,12]`. -/
def bcomp2 : List Nat → List Nat → (Except Err Nat) × List Nat :=
  fun _ _ => (Except.ok 2, [10, 11, 12])

theorem beBytes_length (w v : Nat) : (beBytes w v).length = w := by
  induction w generalizing v with
  | zero => rfl
  | succ w ih => simp [beBytes, ih]

theorem encodeBE_length (w : Nat) (l : List Nat) :
    (encodeBE w l).length = l.length * w := by
  induction l with
  | nil => simp [encodeBE]
  | cons a l ih =>
    simp [encodeBE, beBytes_length, ih]
    ring

theorem decodeBEN_length (k w : Nat) (l : List Nat) :
    (decodeBEN k w l).length = k := by
  induction k generalizing l with
  | zero => rfl
  | succ k ih => simp [decodeBEN, ih]

theorem fromBeBytes_concat (x : List Nat) (b : Nat) :
    fromBeBytes (x ++ [b]) = fromBeBytes x * 256 + b := by
  simp [fromBeBytes, List.foldl_append]

theorem fromBeBytes_beBytes (w v : Nat) (hv : v < 256 ^ w) :
    fromBeBytes (beBytes w v) = v := by
  induction w generalizing v with
  | zero =>
    simp [beBytes, fromBeBytes]
    omega
  | succ w ih =>
    have h1 : v / 256 < 256 ^ w := by
      apply Nat.div_lt_of_lt_mul
      calc v < 256 ^ (w + 1) := hv
        _ = 256 * 256 ^ w := by ring
    rw [beBytes, fromBeBytes_concat, ih _ h1]
    have := Nat.div_add_mod v 256
    omega

theorem decodeBEN_encodeBE (w : Nat) (l : List Nat)
    (hv : ∀ v ∈ l, v < 256 ^ w) :
    decodeBEN l.length w (encodeBE w l) = l := by
  induction l with
  | nil => rfl
  | cons a l ih =>
    have hlen : (beBytes w a).length = w := beBytes_length w a
    show decodeBEN (l.length + 1) w (beBytes w a ++ encodeBE w l) = a :: l
    rw [decodeBEN, List.take_left' hlen, List.drop_left' hlen,
      fromBeBytes_beBytes w a (hv a (by simp))]
    rw [ih (fun v hmem => hv v (by simp [hmem]))]

theorem convert_to_u8_ok (t : TypeTag) (input : List Nat)
    (ht : marshalSupported t = true) :
    convert_to_u8 t input [] =
      .ok (marshalEncode t input).length (marshalEncode t input) := by
  cases t <;> simp_all [convert_to_u8, marshalEncode, marshalSupported]

theorem convert_from_u8_ok (t : TypeTag) (input outBuf : List Nat)
    (ht : marshalSupported t = true) (hm : input.length % byteWidth t = 0) :
    convert_from_u8 t input outBuf =
      .ok (outBuf ++ marshalDecode t input).length (outBuf ++ marshalDecode t input) := by
  cases t <;> simp_all [convert_from_u8, marshalDecode, marshalSupported, byteWidth]

theorem marshalDecode_length (t : TypeTag) (input : List Nat)
    (ht : marshalSupported t = true) :
    (marshalDecode t input).length = input.length / byteWidth t := by
  cases t <;>
    simp_all [marshalDecode, marshalSupported, byteWidth, decodeBEN_length]

theorem convert_from_encode (w : Nat) (hw : 0 < w) (values : List Nat)
    (hv : ∀ v ∈ values, v < 256 ^ w) :
    (encodeBE w values).length % w = 0
    ∧ decodeBEN ((encodeBE w values).length / w) w (encodeBE w values) = values := by
  constructor
  · rw [encodeBE_length]
    exact Nat.mul_mod_left _ _
  · rw [encodeBE_length, Nat.mul_div_cancel _ hw]
    exact decodeBEN_encodeBE w values hv

/-- C1: for every tag the marshaller supports and every finite sequence of
values of that tag, `convert_to_u8` followed by `convert_from_u8` returns
the original sequence element-for-element, and the byte output has length
`values.length * byteWidth`. -/
theorem marshaller_round_trip (t : TypeTag) (values : List Nat)
    (ht : marshalSupported t = true)
    (hv : ∀ v ∈ values, v < 256 ^ byteWidth t) :
    convert_to_u8 t values [] =
      .ok (values.length * byteWidth t) (marshalEncode t values)
    ∧ (marshalEncode t values).length = values.length * byteWidth t
    ∧ convert_from_u8 t (marshalEncode t values) [] = .ok values.length values := by
  have henc := convert_to_u8_ok t values ht
  have hlen : (marshalEncode t values).length = values.length * byteWidth t := by
    cases t <;> simp_all [marshalEncode, marshalSupported, byteWidth, encodeBE_length]
  refine ⟨by rw [henc, hlen], hlen, ?_⟩
  cases t with
  | i8 => simp [marshalSupported] at ht
  | u8 => simp [marshalEncode, convert_from_u8]
  | u16 =>
    have h := convert_from_encode 2 (by norm_num) values hv
    simp [marshalEncode, convert_from_u8, byteWidth, h.1, h.2]
  | u32 =>
    have h := convert_from_encode 4 (by norm_num) values hv
    simp [marshalEncode, convert_from_u8, byteWidth, h.1, h.2]
  | u64 =>
    have h := convert_from_encode 8 (by norm_num) values hv
    simp [marshalEncode, convert_from_u8, byteWidth, h.1, h.2]
  | i16 =>
    have h := convert_from_encode 2 (by norm_num) values hv
    simp [marshalEncode, convert_from_u8, byteWidth, h.1, h.2]
  | i32 =>
    have h := convert_from_encode 4 (by norm_num) values hv
    simp [marshalEncode, convert_from_u8, byteWidth, h.1, h.2]
  | i64 =>
    have h := convert_from_encode 8 (by norm_num) values hv
    simp [marshalEncode, convert_from_u8, byteWidth, h.1, h.2]
  | f32 =>
    have h := convert_from_encode 4 (by norm_num) values hv
    simp [marshalEncode, convert_from_u8, byteWidth, h.1, h.2]
  | f64 =>
    have h := convert_from_encode 8 (by norm_num) values hv
    simp [marshalEncode, convert_from_u8, byteWidth, h.1, h.2]

/-- Witness for C1 at tag `u16` and the sequence `[258]`. -/
theorem marshaller_round_trip_witness :
    marshalSupported TypeTag.u16 = true
    ∧ (∀ v ∈ [258], v < 256 ^ byteWidth TypeTag.u16)
    ∧ (convert_to_u8 .u16 [258] [] =
        .ok ([258].length * byteWidth TypeTag.u16) (marshalEncode .u16 [258])
      ∧ (marshalEncode .u16 [258]).length = [258].length * byteWidth TypeTag.u16
      ∧ convert_from_u8 .u16 (marshalEncode .u16 [258]) [] = .ok [258].length [258]) :=
  ⟨rfl, by decide, marshaller_round_trip .u16 [258] rfl (by decide)⟩

/-- C9 (the code aborts instead of returning `LengthMismatch`): feeding
the `u16` unmarshaller a 3-byte buffer trips the `byteorder` length
assertion, a process abort, rather than a recoverable error. -/
theorem convert_from_u8_partial_element_aborts :
    convert_from_u8 .u16 [0, 1, 2] [] = .abort .lenAssert := rfl

/-- C3 (the code aborts instead of returning `UnsupportedType`): the
q-compress codec's compress hits `panic!("Unsupported data type")` for
the `u8` tag, for every backend, input and output buffer. -/
theorem qcom_compress_unsupported_tag_aborts (qc : TypeTag → List Nat → List Nat)
    (input outBuf : List Nat) :
    qcom_compress qc .u8 input outBuf = (.abort .unsupportedType, outBuf) := rfl

/-- C10: with `uncompress_size = None`, Hadoop LZ4 decompress returns the
missing-size error for every backend, option setting, input, tag and
buffer, leaving the output buffer untouched — no parsing or fallback runs. -/
theorem hadoop_decompress_requires_uncompress_size (bd : BlockFn) (fd : FrameFn)
    (bc : Bool) (input : List Nat) (t : TypeTag) (outBuf : List Nat) :
    lz4_hadoop_decompress bd fd bc input t outBuf none =
      (.err (.general "LZ4HadoopCodec unsupported without uncompress_size"), outBuf) := rfl

/-- C2 counterexample: a Snappy decompress whose backend reports 4 raw
bytes with output tag `u16` appends 2 elements but returns 4. -/
theorem snappy_count_counterexample :
    snappy_decompress dlen0 dec4 [9] .u16 [] (some 4) = (.ok 4, [1, 515])
    ∧ (4 : Nat) ≠ ([1, 515] : List Nat).length :=
  ⟨rfl, by decide⟩

/-- C2 amended: a successful Snappy decompress returns the backend's raw
byte count, while the number of elements appended is that of the internal
byte buffer divided by the tag's byte width. -/
theorem snappy_decompress_count_amended (dlen : List Nat → Except Err Nat)
    (dec : SnappyFn) (input : List Nat) (t : TypeTag) (outBuf : List Nat)
    (len n : Nat) (internal2 : List Nat)
    (hdec : dec input (List.replicate len 0) = (Except.ok n, internal2))
    (ht : marshalSupported t = true)
    (hm : internal2.length % byteWidth t = 0) :
    snappy_decompress dlen dec input t outBuf (some len) =
      (.ok n, outBuf ++ marshalDecode t internal2)
    ∧ (outBuf ++ marshalDecode t internal2).length =
        outBuf.length + internal2.length / byteWidth t := by
  constructor
  · simp only [snappy_decompress, hdec, convert_from_u8_ok t internal2 outBuf ht hm]
  · simp [marshalDecode_length t internal2 ht]

/-- Witness for the amended C2 theorem at tag `u16`. -/
theorem snappy_decompress_count_amended_witness :
    dec4 [9] (List.replicate 4 0) = (Except.ok 4, [0, 1, 2, 3])
    ∧ marshalSupported TypeTag.u16 = true
    ∧ ([0, 1, 2, 3] : List Nat).length % byteWidth TypeTag.u16 = 0
    ∧ (snappy_decompress dlen0 dec4 [9] .u16 [7] (some 4) =
        (.ok 4, [7] ++ marshalDecode .u16 [0, 1, 2, 3])
      ∧ ([7] ++ marshalDecode .u16 [0, 1, 2, 3]).length =
          ([7] : List Nat).length + ([0, 1, 2, 3] : List Nat).length / byteWidth TypeTag.u16) :=
  ⟨rfl, rfl, by decide,
    snappy_decompress_count_amended dlen0 dec4 [9] .u16 [7] 4 4 [0, 1, 2, 3] rfl rfl (by decide)⟩

/-- C7 counterexample: one leftover byte at the initial frame boundary
makes the parser fail with the "Not all input are consumed" error, which
is a different error from "Not enough bytes for Hadoop frame" (the
truncated-frame error the claim names). -/
theorem short_leftover_error_counterexample :
    try_decompress_hadoop bdZero [9] [] = (.error (.hadoop .notAllConsumed), [])
    ∧ HadoopParseErr.notAllConsumed ≠ HadoopParseErr.notEnoughInput :=
  ⟨rfl, by decide⟩

/-- C7 amended: at every frame boundary of the Hadoop parse loop, a
nonempty remainder of fewer than 8 bytes fails the whole parse with the
"Not all input are consumed" error, leaving the output window unchanged. -/
theorem short_leftover_unconsumed_input (bd : BlockFn) (fuel : Nat)
    (input output : List Nat) (readBytes : Nat)
    (h1 : 0 < input.length) (h2 : input.length < 8) :
    try_decompress_hadoop_loop bd fuel input output readBytes =
      (.error (.hadoop .notAllConsumed), output) := by
  have hne : input.length ≠ 0 := by omega
  cases fuel with
  | zero => simp [try_decompress_hadoop_loop, hne]
  | succ fuel => simp [try_decompress_hadoop_loop, h2, hne]

/-- Witness for the amended C7 theorem with a 1-byte input. -/
theorem short_leftover_unconsumed_input_witness :
    0 < ([9] : List Nat).length ∧ ([9] : List Nat).length < 8
    ∧ try_decompress_hadoop_loop bdZero 1 [9] [] 0 =
        (.error (.hadoop .notAllConsumed), []) :=
  ⟨by decide, by decide,
    short_leftover_unconsumed_input bdZero 1 [9] [] 0 (by decide) (by decide)⟩

/-- C4 (code bug): with a pre-filled typed output buffer `[9]`, a failed
Hadoop parse and a frame fallback that succeeds with elements `[1, 2]`,
the overall call returns the buffer `[1, 2, 0, 0]` — the pre-call entry
`9` was truncated away (the source truncates to `output_len = 0`, the
length of its fresh internal buffer) and the failed Hadoop attempt's
internal bytes `[0, 0]` were appended after the fallback's output —
instead of the claimed `[9] ++ [1, 2]`. -/
theorem hadoop_fallback_truncation_bug :
    lz4_hadoop_decompress bdZero fdOk12 true [0] .u8 [9] (some 2) =
      (.ok 2, [1, 2, 0, 0])
    ∧ ([1, 2, 0, 0] : List Nat) ≠ [9] ++ [1, 2] :=
  ⟨rfl, by decide⟩

/-- C8 (code bug): with pre-existing entries `[3, 4]` in the caller's
output buffer, a Hadoop LZ4 decompress that enters the fallback path
returns a buffer whose first two entries are no longer `[3, 4]` — the
append-only contract of `Codec::decompress` is violated. -/
theorem hadoop_decompress_tramples_output_bug :
    lz4_hadoop_decompress bdErr fdErr true [5] .u8 [3, 4] (some 2) =
      (.err (.general "x"), [0, 0, 0, 0])
    ∧ List.take 2 ([0, 0, 0, 0] : List Nat) ≠ [3, 4] :=
  ⟨rfl, by decide⟩

/-- C5: whenever the Hadoop frame parse fails, decompress with
`backward_compatible_lz4 = false` returns the original parse error with
no fallback, and with the option set it returns the frame attempt's
result unless that attempt fails recoverably, in which case the raw
attempt's result (run with the caller-supplied expected length) — so an
input valid as LZ4-Raw succeeds. -/
theorem hadoop_fallback_chain (bd : BlockFn) (fd : FrameFn) (input : List Nat)
    (t : TypeTag) (outBuf : List Nat) (required_len : Nat) (e : Err)
    (internal2 : List Nat)
    (hparse : try_decompress_hadoop bd input (List.replicate required_len 0) =
      (Except.error e, internal2))
    (ht : marshalSupported t = true)
    (hlen : internal2.length % byteWidth t = 0) :
    (lz4_hadoop_decompress bd fd false input t outBuf (some required_len)).1 = .err e
    ∧ (lz4_hadoop_decompress bd fd true input t outBuf (some required_len)).1 =
        fallbackChain (lz4_frame_decompress fd input t []).1
          (lz4_raw_decompress bd input t [] (some required_len)).1 := by
  have hc := convert_from_u8_ok t internal2
  constructor
  · simp only [lz4_hadoop_decompress, hparse, hc outBuf ht hlen]
    simp
  · simp only [lz4_hadoop_decompress, hparse]
    rcases hF : lz4_frame_decompress fd input t [] with ⟨fres, outF⟩
    cases fres with
    | ok m => simp [fallbackChain, hc outF ht hlen]
    | abort p => simp [fallbackChain]
    | err e2 =>
      rcases hR : lz4_raw_decompress bd input t [] (some required_len) with ⟨rres, outR⟩
      cases rres with
      | ok n => simp [fallbackChain, hc outR ht hlen]
      | abort p => simp [fallbackChain]
      | err er => simp [fallbackChain, hc outR ht hlen]

/-- Witness for C5: 1-byte input, parse fails, frame fallback succeeds. -/
theorem hadoop_fallback_chain_witness :
    (lz4_hadoop_decompress bdZero fdOk5 false [9] .u8 [7] (some 0)).1 =
      .err (.hadoop .notAllConsumed)
    ∧ (lz4_hadoop_decompress bdZero fdOk5 true [9] .u8 [7] (some 0)).1 =
        fallbackChain (lz4_frame_decompress fdOk5 [9] .u8 []).1
          (lz4_raw_decompress bdZero [9] .u8 [] (some 0)).1 :=
  hadoop_fallback_chain bdZero fdOk5 [9] .u8 [7] 0 (.hadoop .notAllConsumed) []
    rfl rfl (by decide)

/-- C6: whenever the marshalling, the bound computation and the block
compressor succeed, Hadoop LZ4 compress appends exactly one frame: the
4-byte big-endian marshalled-input byte length, the 4-byte big-endian
count of compressed bytes actually produced, then those compressed
bytes; the pre-existing output prefix is preserved. -/
theorem hadoop_compress_frame_layout (cbound : Nat → Except Err Nat)
    (bcomp : List Nat → List Nat → (Except Err Nat) × List Nat)
    (t : TypeTag) (values outBuf : List Nat) (bound n : Nat) (slice2 : List Nat)
    (ht : marshalSupported t = true)
    (hcb : cbound (marshalEncode t values).length = Except.ok bound)
    (hbc : bcomp (marshalEncode t values) (List.replicate bound 0) =
      (Except.ok n, slice2))
    (hsl : slice2.length = bound)
    (hn : n ≤ bound) :
    lz4_hadoop_compress cbound bcomp t values outBuf =
      (.ok (), outBuf ++ be32 (marshalEncode t values).length
        ++ be32 n ++ slice2.take n) := by
  have henc := convert_to_u8_ok t values ht
  have hraw : lz4_raw_compress cbound bcomp t values (outBuf ++ List.replicate 8 0) =
      (.ok (), (outBuf ++ List.replicate 8 0) ++ slice2.take n) := by
    simp only [lz4_raw_compress, henc, hcb, hbc]
  have h3 : (slice2.take n).length = n := by
    rw [List.length_take, hsl]
    omega
  have h1 : ((outBuf ++ List.replicate 8 0) ++ slice2.take n).drop outBuf.length
      = List.replicate 8 0 ++ slice2.take n := by
    rw [List.append_assoc]
    exact List.drop_left _ _
  have h2 : ((outBuf ++ List.replicate 8 0) ++ slice2.take n).take outBuf.length
      = outBuf := by
    rw [List.append_assoc]
    exact List.take_left _ _
  have h4 : (List.replicate 8 (0 : Nat) ++ slice2.take n).drop 8 = slice2.take n :=
    List.drop_left' (by simp)
  have h5 : (List.replicate 8 (0 : Nat) ++ slice2.take n).length - 8 = n := by
    simp [List.length_append, h3]
  simp only [lz4_hadoop_compress, henc, hraw, h1, h2, h4, h5]

/-- Witness for C6 at tag `u8`, one value, concrete backends. -/
theorem hadoop_compress_frame_layout_witness :
    marshalSupported TypeTag.u8 = true
    ∧ cbound3 (marshalEncode .u8 [7]).length = Except.ok 3
    ∧ bcomp2 (marshalEncode .u8 [7]) (List.replicate 3 0) = (Except.ok 2, [10, 11, 12])
    ∧ ([10, 11, 12] : List Nat).length = 3
    ∧ 2 ≤ 3
    ∧ lz4_hadoop_compress cbound3 bcomp2 .u8 [7] [] =
        (.ok (), [] ++ be32 (marshalEncode .u8 [7]).length
          ++ be32 2 ++ List.take 2 [10, 11, 12]) :=
  ⟨rfl, rfl, rfl, rfl, by decide,
    hadoop_compress_frame_layout cbound3 bcomp2 .u8 [7] [] 3 2 [10, 11, 12]
      rfl rfl rfl rfl (by decide)⟩
